import Mathlib

/-!
A verified model of the Pithon evaluator

This file is a shallow embedding, in Lean 4, of the tree-walking evaluator in
`src/pithon/evaluator/evaluator.py`, together with theorems settling the
specification's claims about it.

Modelling conventions:

* The evaluator's collaborator modules (`pithon.syntax`, `pithon.evaluator.envframe`,
  `pithon.evaluator.envvalue`, `pithon.evaluator.primitive`) are not part of the
  source tree; their data types and the two environment operations are modelled
  from the specification (sections 3, 4.1 and 6) and from the fields the
  evaluator reads.  Such definitions carry a `Modelled from the spec:` note.
* Environment frames and object instances are shared mutable structures in the
  host language; they are modelled as arenas inside an explicit `State`, and a
  frame/object reference is an index into the arena.
* The host exceptions used for control flow (`ReturnException`, `BreakException`,
  `ContinueException`) and the fatal errors become an explicit `Outcome` sum,
  threaded through every evaluation function, exactly as section 9 of the
  specification suggests for reimplementations.
* `_call_method` mutates the AST in place (`method.funcdef.arg_names[0] = 'self'`).
  Because every function-definition node aliases its (mutable) parameter-name
  list with the closures built from it, the current contents of each node's
  `arg_names` list is part of the mutable state: `State.astArgNames` maps a
  node identity (`FuncDef.nodeId`) to the list's current contents, an absent key
  meaning "never mutated".  Every read of `funcdef.arg_names` in the evaluator
  goes through that table (`effArgNames`).
* Numbers are modelled as integers; every claim under scrutiny involves only
  integer-valued numbers, on which the host `int()` truncation is the identity.
* Python exhausts neither stack nor loops; Lean requires termination, so every
  evaluation function consumes `fuel` and answers `Outcome.timeout` when it runs
  out.  With enough fuel the model computes exactly what the source computes.
* The concrete set of primitive (native) functions lives in the external
  `primitive` module and is not modelled; no claim involves a primitive
  function, and the initial environment is modelled with no bindings.
-/

/-- Python dictionary update `d[k] = v` on an insertion-ordered association
list: overwrites the entry in place if the key is present, else appends. -/
def dictSet {α β : Type} [BEq α] : List (α × β) → α → β → List (α × β)
  | [], k, v => [(k, v)]
  | (k0, v0) :: rest, k, v =>
    if k0 == k then (k0, v) :: rest else (k0, v0) :: dictSet rest k v

/-- In-place update of one arena cell: replaces the element at the given
position if it exists, and leaves the list unchanged otherwise. -/
def listModify {α : Type} (g : α → α) : Nat → List α → List α
  | _, [] => []
  | 0, a :: rest => g a :: rest
  | n+1, a :: rest => a :: listModify g n rest

/-- Models the host's prefix test on character lists. -/
def listPrefix : List Char → List Char → Bool
  | [], _ => true
  | _ :: _, [] => false
  | a :: as, b :: bs => a == b && listPrefix as bs

/-- Models the host's substring containment: `listInfix n h` is the Python
expression `n in h` for strings `n` and `h` (character lists). -/
def listInfix : List Char → List Char → Bool
  | n, [] => n.isEmpty
  | n, c :: t => listPrefix n (c :: t) || listInfix n t

mutual
/-- AST nodes of `pithon.syntax` (an external collaborator of the evaluator).
Modelled from the spec: the node tags are the closed set of section 3, the
fields are exactly those the evaluator reads.  The evaluator treats statements
and expressions uniformly, so a single inductive covers both. -/
inductive PiStatement where
  | piNumber (value : Int)
  | piBool (value : Bool)
  | piNone
  | piString (value : String)
  | piList (elements : List PiStatement)
  | piTuple (elements : List PiStatement)
  | piVariable (name : String)
  | piBinaryOperation (operator : String) (left : PiStatement) (right : PiStatement)
  | piAssignment (name : String) (value : PiStatement)
  | piIfThenElse (condition : PiStatement) (then_branch : List PiStatement)
      (else_branch : List PiStatement)
  | piNot (operand : PiStatement)
  | piAnd (left : PiStatement) (right : PiStatement)
  | piOr (left : PiStatement) (right : PiStatement)
  | piWhile (condition : PiStatement) (body : List PiStatement)
  | piFunctionDef (funcdef : FuncDef)
  | piReturn (value : PiStatement)
  | piFunctionCall (function : PiStatement) (args : List PiStatement)
  | piFor (var : String) (iterable : PiStatement) (body : List PiStatement)
  | piBreak
  | piContinue
  | piIn (container : PiStatement) (element : PiStatement)
  | piSubscript (collection : PiStatement) (index : PiStatement)
  | piClassDef (name : String) (methods : List FuncDef)
  | piAttribute (object : PiStatement) (attr : String)
  | piAttributeAssignment (object : PiStatement) (attr : String) (value : PiStatement)

/-- A `PiFunctionDef` node.  `nodeId` is the node's host identity: two nodes of
one program carry distinct ids, and `State.astArgNames` keyed by `nodeId`
models the mutable `arg_names` list the node shares with every closure built
from it. -/
inductive FuncDef where
  | mk (nodeId : Nat) (name : String) (arg_names : List String)
      (vararg : Option String) (body : List PiStatement)
end

def FuncDef.nodeId : FuncDef → Nat
  | ⟨i, _, _, _, _⟩ => i

def FuncDef.name : FuncDef → String
  | ⟨_, n, _, _, _⟩ => n

def FuncDef.arg_names : FuncDef → List String
  | ⟨_, _, a, _, _⟩ => a

def FuncDef.vararg : FuncDef → Option String
  | ⟨_, _, _, v, _⟩ => v

def FuncDef.body : FuncDef → List PiStatement
  | ⟨_, _, _, _, b⟩ => b

/-- The same definition node with another body (used to state that arity errors
are raised before the body can matter). -/
def FuncDef.withBody : FuncDef → List PiStatement → FuncDef
  | ⟨i, n, a, v, _⟩, b => ⟨i, n, a, v, b⟩

/-- Payload of a `VClassDef` runtime value: a name plus the method table, each
method a function closure (definition node + captured frame index).
Modelled from the spec: `envvalue` is an external collaborator module. -/
structure ClassDefV where
  name : String
  methods : List (String × (FuncDef × Nat))

/-- Runtime values (`pithon.evaluator.envvalue`).  Modelled from the spec:
the tagged union of section 3.  A function closure pairs a definition node with
the index of the frame captured at definition time; a method closure adds the
bound instance; an object instance is a reference into the object arena.
Native/primitive functions are not modelled (see the header). -/
inductive Value where
  | vnumber (value : Int)
  | vbool (value : Bool)
  | vstring (value : String)
  | vnone
  | vlist (elements : List Value)
  | vtuple (elements : List Value)
  | vclosure (funcdef : FuncDef) (closure_env : Nat)
  | vmethod (funcdef : FuncDef) (closure_env : Nat) (inst : Nat)
  | vclass (class_def : ClassDefV)
  | vobject (ref : Nat)

mutual
/-- Host equality `==` between runtime values, as used by membership tests.
Values of distinct variants compare unequal (distinct host classes); numbers,
booleans, strings and sequences compare structurally; object references
compare by arena identity.  Closures, methods and classes compare unequal:
the host falls back to object identity there, which no claim exercises. -/
def pyEq : Value → Value → Bool
  | .vnumber a, .vnumber b => a == b
  | .vbool a, .vbool b => a == b
  | .vstring a, .vstring b => a == b
  | .vnone, .vnone => true
  | .vlist a, .vlist b => pyEqList a b
  | .vtuple a, .vtuple b => pyEqList a b
  | .vobject a, .vobject b => a == b
  | _, _ => false

def pyEqList : List Value → List Value → Bool
  | [], [] => true
  | a :: as, b :: bs => pyEq a b && pyEqList as bs
  | _, _ => false
end

/-- Truthiness of the payload (`bool(value.value)` in the host), read by
`not`/`and`/`or` after `_check_valid_piandor_type` has approved the variant.
The remaining variants are unreachable behind that guard. -/
def isTruthy : Value → Bool
  | .vnumber n => n != 0
  | .vbool b => b
  | .vstring s => !s.isEmpty
  | .vnone => false
  | .vlist es => !es.isEmpty
  | .vtuple es => !es.isEmpty
  | _ => false

/-- `_check_valid_piandor_type`: the variants admitted as operands of
`not`/`and`/`or` (evaluator.py line 151), as a Boolean test. -/
def check_valid_piandor_type : Value → Bool
  | .vbool _ => true
  | .vnumber _ => true
  | .vstring _ => true
  | .vnone => true
  | .vlist _ => true
  | .vtuple _ => true
  | _ => false

/-- One lexical scope: its own name-to-value mapping plus an optional parent
frame reference.  Modelled from the spec: `envframe` is an external
collaborator module (sections 3, 4.1). -/
structure EnvFrame where
  vars : List (String × Value)
  parent : Option Nat

/-- One object instance: its class and its mutable attribute mapping. -/
structure ObjData where
  class_def : ClassDefV
  attributes : List (String × Value)

/-- The mutable world: the frame arena, the object arena, and the current
contents of each function-definition node's `arg_names` list (absent key:
the list still holds `FuncDef.arg_names`, its parse-time contents). -/
structure State where
  frames : List EnvFrame
  objects : List ObjData
  astArgNames : List (Nat × List String)

/-- `EnvFrame(parent=...)`: a fresh empty frame appended to the arena; its
index is `st.frames.length` before the append. -/
def addFrame (st : State) (parent : Option Nat) : State :=
  { st with frames := st.frames ++ [⟨[], parent⟩] }

/-- `env.insert(name, value)`: creates or overwrites the binding in the given
frame only, never in an ancestor.  Modelled from the spec (section 4.1). -/
def insertVar (st : State) (idx : Nat) (name : String) (v : Value) : State :=
  { st with frames := listModify (fun fr => { fr with vars := dictSet fr.vars name v }) idx st.frames }

/-- Lookup walk: own mapping first, then the parent chain.  `gas` bounds the
walk; parents always precede children in the arena, so the arena size is
enough gas for every chain the evaluator builds. -/
def lookupEnvAux (frames : List EnvFrame) : Nat → Nat → String → Option Value
  | 0, _, _ => none
  | gas+1, idx, name =>
    match frames.get? idx with
    | none => none
    | some fr =>
      match fr.vars.lookup name with
      | some v => some v
      | none =>
        match fr.parent with
        | some p => lookupEnvAux frames gas p name
        | none => none

/-- `env.lookup(name)`: searches the frame and then each ancestor; `none`
models the UnboundNameError raised when no frame defines the name.
Modelled from the spec (section 4.1). -/
def lookupVar (st : State) (idx : Nat) (name : String) : Option Value :=
  lookupEnvAux st.frames st.frames.length idx name

/-- `VObject(class_def, {})` etc.: a fresh object appended to the arena. -/
def addObject (st : State) (od : ObjData) : State :=
  { st with objects := st.objects ++ [od] }

/-- Dereference an object.  Every reference the evaluator produces indexes the
arena, so the default is unreachable. -/
def getObj (st : State) (r : Nat) : ObjData :=
  (st.objects.get? r).getD ⟨⟨"", []⟩, []⟩

/-- `obj.attributes[attr] = value`. -/
def setAttr (st : State) (r : Nat) (attr : String) (v : Value) : State :=
  { st with objects := listModify (fun od => { od with attributes := dictSet od.attributes attr v }) r st.objects }

/-- The current contents of a definition node's `arg_names` list: the mutated
contents if `_call_method` has written to it, else the parse-time contents. -/
def effArgNames (st : State) (fd : FuncDef) : List String :=
  match st.astArgNames.lookup fd.nodeId with
  | some l => l
  | none => fd.arg_names

/-- In-place overwrite of a definition node's `arg_names` list. -/
def setArgNames (st : State) (i : Nat) (l : List String) : State :=
  { st with astArgNames := dictSet st.astArgNames i l }

/-- `initial_env()` with the external primitive bindings left out (see the
header): one root frame, no objects, no AST mutation yet. -/
def initState : State := ⟨[⟨[], none⟩], [], []⟩

/-- Host list indexing `xs[n]` for an integer `n`: a negative index counts
from the end; a still-negative or too-large index is an IndexError (`none`). -/
def pyListGet (xs : List Value) (n : Int) : Option Value :=
  let m := if n < 0 then n + xs.length else n
  if m < 0 then none else xs.get? m.toNat

/-- Host string indexing `s[n]`, producing a one-character string. -/
def pyStrGet (s : String) (n : Int) : Option String :=
  let cs := s.toList
  let m := if n < 0 then n + cs.length else n
  if m < 0 then none
  else (cs.get? m.toNat).map (fun c => String.mk [c])

/-- The fatal errors of section 7.  `indexError` is the host IndexError that
out-of-range subscripts and the `arg_names[0]` write on an empty list raise.
UnsupportedNodeError cannot arise: the Lean node type is closed. -/
inductive EvalError where
  | typeError
  | unboundNameError (name : String)
  | attributeError
  | indexError

/-- Result of one evaluation step: a value, a fatal error, one of the three
non-local control signals in flight, or fuel exhaustion (a model artifact,
not a program behaviour). -/
inductive Outcome where
  | ok (v : Value)
  | error (e : EvalError)
  | ret (v : Value)
  | brk
  | cont
  | timeout

/-- Result of evaluating a list of expressions (list/tuple displays and
call arguments): the collected values, or the first non-`ok` outcome. -/
inductive ListOutcome where
  | vals (vs : List Value)
  | fail (o : Outcome)

/-- Result of the positional-binding loop of `_call_function`/`_call_method`:
all parameters bound, or a missing-argument TypeError raised mid-loop.  Either
way the state carries the insertions made before the loop stopped. -/
inductive BindPosRes where
  | done (st : State)
  | missing (st : State)

/-- Result of the whole argument-binding phase of `_call_function`. -/
inductive BindRes where
  | bound (st : State)
  | missing (st : State)
  | toomany (st : State)

/-- The positional loop (evaluator.py lines 282-286 and 258-262): walks the
parameter names in order, binding each to the argument in the same position
into the call frame, and raises a missing-argument TypeError at the first
name with no argument.  Surplus arguments are not examined here. -/
def bindPositional (names : List String) (args : List Value) (idx : Nat)
    (st : State) : BindPosRes :=
  match names, args with
  | [], _ => .done st
  | _ :: _, [] => .missing st
  | n :: ns, v :: vs => bindPositional ns vs idx (insertVar st idx n v)
termination_by structural names

/-- The argument-binding phase of `_call_function` (lines 278-295): positional
binding, then either the variadic parameter collects the surplus into a list,
or a surplus without variadic parameter is a too-many-arguments TypeError. -/
def bindAll (names : List String) (va : Option String) (args : List Value)
    (idx : Nat) (st : State) : BindRes :=
  match bindPositional names args idx st with
  | .missing st1 => .missing st1
  | .done st1 =>
    match va with
    | some vn => .bound (insertVar st1 idx vn (.vlist (args.drop names.length)))
    | none => if names.length < args.length then .toomany st1 else .bound st1

/-- `_evaluate_class_def` (lines 307-323): child frame for the class body,
method closures over that frame, the class value bound in the current frame,
and `None` as the statement's value. -/
def evaluate_class_def (name : String) (methods : List FuncDef) (env : Nat)
    (st : State) : Outcome × State :=
  let classIdx := st.frames.length
  let st1 := addFrame st (some env)
  let ms := methods.foldl (fun acc fd => dictSet acc fd.name (fd, classIdx)) []
  (.ok .vnone, insertVar st1 env name (.vclass ⟨name, ms⟩))

set_option maxHeartbeats 1600000

mutual
/-- `evaluate_stmt` (lines 37-147): the single dispatch on the node tag.
Branches appear in source order. -/
def evaluate_stmt (fuel : Nat) (node : PiStatement) (env : Nat) (st : State) :
    Outcome × State :=
  match fuel with
  | 0 => (.timeout, st)
  | f+1 =>
    match node with
    | .piNumber v => (.ok (.vnumber v), st)
    | .piClassDef name methods => evaluate_class_def name methods env st
    | .piAttribute objE attr => evaluate_attribute f objE attr env st
    | .piAttributeAssignment objE attr valE =>
      evaluate_attribute_assignment f objE attr valE env st
    | .piBool b => (.ok (.vbool b), st)
    | .piNone => (.ok .vnone, st)
    | .piString s => (.ok (.vstring s), st)
    | .piList elems =>
      match eval_expr_list f elems env st with
      | (.vals vs, st1) => (.ok (.vlist vs), st1)
      | (.fail o, st1) => (o, st1)
    | .piTuple elems =>
      match eval_expr_list f elems env st with
      | (.vals vs, st1) => (.ok (.vtuple vs), st1)
      | (.fail o, st1) => (o, st1)
    | .piVariable name =>
      match lookupVar st env name with
      | some v => (.ok v, st)
      | none => (.error (.unboundNameError name), st)
    | .piBinaryOperation op l r =>
      evaluate_stmt f (.piFunctionCall (.piVariable op) [l, r]) env st
    | .piAssignment name valE =>
      match evaluate_stmt f valE env st with
      | (.ok v, st1) => (.ok v, insertVar st1 env name v)
      | other => other
    | .piIfThenElse condE thenB elseB =>
      match evaluate_stmt f condE env st with
      | (.ok c, st1) =>
        match c with
        | .vbool b => evaluate_from f .vnone (if b then thenB else elseB) env st1
        | _ => (.error .typeError, st1)
      | other => other
    | .piNot opE =>
      match evaluate_stmt f opE env st with
      | (.ok v, st1) =>
        if check_valid_piandor_type v then (.ok (.vbool (!isTruthy v)), st1)
        else (.error .typeError, st1)
      | other => other
    | .piAnd l r =>
      match evaluate_stmt f l env st with
      | (.ok lv, st1) =>
        if check_valid_piandor_type lv then
          if !isTruthy lv then (.ok lv, st1)
          else
            match evaluate_stmt f r env st1 with
            | (.ok rv, st2) =>
              if check_valid_piandor_type rv then (.ok rv, st2)
              else (.error .typeError, st2)
            | other => other
        else (.error .typeError, st1)
      | other => other
    | .piOr l r =>
      match evaluate_stmt f l env st with
      | (.ok lv, st1) =>
        if check_valid_piandor_type lv then
          if isTruthy lv then (.ok lv, st1)
          else
            match evaluate_stmt f r env st1 with
            | (.ok rv, st2) =>
              if check_valid_piandor_type rv then (.ok rv, st2)
              else (.error .typeError, st2)
            | other => other
        else (.error .typeError, st1)
      | other => other
    | .piWhile condE body => evaluate_while f condE body .vnone env st
    | .piFunctionDef fd =>
      (.ok .vnone, insertVar st env fd.name (.vclosure fd env))
    | .piReturn valE =>
      match evaluate_stmt f valE env st with
      | (.ok v, st1) => (.ret v, st1)
      | other => other
    | .piFunctionCall fnE argEs => evaluate_function_call f fnE argEs env st
    | .piFor var iterE body => evaluate_for f var iterE body env st
    | .piBreak => (.brk, st)
    | .piContinue => (.cont, st)
    | .piIn containerE elementE => evaluate_in f containerE elementE env st
    | .piSubscript collE idxE => evaluate_subscript f collE idxE env st
termination_by structural fuel

/-- `evaluate` applied to a statement list (lines 25-31), with the running
`last_value` explicit: starts at `None`, each `ok` step replaces it, any other
outcome propagates at once. -/
def evaluate_from (fuel : Nat) (last : Value) (stmts : List PiStatement)
    (env : Nat) (st : State) : Outcome × State :=
  match fuel with
  | 0 => (.timeout, st)
  | f+1 =>
    match stmts with
    | [] => (.ok last, st)
    | s :: rest =>
      match evaluate_stmt f s env st with
      | (.ok v, st1) => evaluate_from f v rest env st1
      | other => other
termination_by structural fuel

/-- The left-to-right evaluation of a list of expressions (list/tuple
displays, call arguments). -/
def eval_expr_list (fuel : Nat) (exprs : List PiStatement) (env : Nat)
    (st : State) : ListOutcome × State :=
  match fuel with
  | 0 => (.fail .timeout, st)
  | f+1 =>
    match exprs with
    | [] => (.vals [], st)
    | e :: rest =>
      match evaluate_stmt f e env st with
      | (.ok v, st1) =>
        match eval_expr_list f rest env st1 with
        | (.vals vs, st2) => (.vals (v :: vs), st2)
        | other => other
      | (o, st1) => (.fail o, st1)
termination_by structural fuel

/-- `_evaluate_while` (lines 154-168), with the running `last_value` explicit:
condition re-checked (and type-checked) before each iteration; the body runs in
the same environment; `break` ends the loop and `continue` rechecks the
condition, both leaving `last_value` as the last *completed* body value. -/
def evaluate_while (fuel : Nat) (condE : PiStatement) (body : List PiStatement)
    (last : Value) (env : Nat) (st : State) : Outcome × State :=
  match fuel with
  | 0 => (.timeout, st)
  | f+1 =>
    match evaluate_stmt f condE env st with
    | (.ok c, st1) =>
      match c with
      | .vbool b =>
        if b then
          match evaluate_from f .vnone body env st1 with
          | (.ok v, st2) => evaluate_while f condE body v env st2
          | (.brk, st2) => (.ok last, st2)
          | (.cont, st2) => evaluate_while f condE body last env st2
          | other => other
        else (.ok last, st1)
      | _ => (.error .typeError, st1)
    | other => other
termination_by structural fuel

/-- `_evaluate_for` (lines 170-185): the iterable must be a list or tuple. -/
def evaluate_for (fuel : Nat) (var : String) (iterE : PiStatement)
    (body : List PiStatement) (env : Nat) (st : State) : Outcome × State :=
  match fuel with
  | 0 => (.timeout, st)
  | f+1 =>
    match evaluate_stmt f iterE env st with
    | (.ok it, st1) =>
      match it with
      | .vlist xs => evaluate_for_items f var body xs .vnone env st1
      | .vtuple xs => evaluate_for_items f var body xs .vnone env st1
      | _ => (.error .typeError, st1)
    | other => other
termination_by structural fuel

/-- The iteration loop of `_evaluate_for`: the loop variable is (re)bound
directly in the current frame, the body runs in that same frame, and break /
continue behave as in `while`. -/
def evaluate_for_items (fuel : Nat) (var : String) (body : List PiStatement)
    (items : List Value) (last : Value) (env : Nat) (st : State) :
    Outcome × State :=
  match fuel with
  | 0 => (.timeout, st)
  | f+1 =>
    match items with
    | [] => (.ok last, st)
    | item :: rest =>
      let st1 := insertVar st env var item
      match evaluate_from f .vnone body env st1 with
      | (.ok v, st2) => evaluate_for_items f var body rest v env st2
      | (.brk, st2) => (.ok last, st2)
      | (.cont, st2) => evaluate_for_items f var body rest last env st2
      | other => other
termination_by structural fuel

/-- `_evaluate_in` (lines 204-216): container evaluated before element;
list/tuple membership is elementwise host equality; a string container demands
a string element (anything else is `False`, not an error) and tests substring
containment; any other container is a TypeError. -/
def evaluate_in (fuel : Nat) (containerE elementE : PiStatement) (env : Nat)
    (st : State) : Outcome × State :=
  match fuel with
  | 0 => (.timeout, st)
  | f+1 =>
    match evaluate_stmt f containerE env st with
    | (.ok cv, st1) =>
      match evaluate_stmt f elementE env st1 with
      | (.ok ev, st2) =>
        match cv with
        | .vlist xs => (.ok (.vbool (xs.any (fun w => pyEq ev w))), st2)
        | .vtuple xs => (.ok (.vbool (xs.any (fun w => pyEq ev w))), st2)
        | .vstring s =>
          match ev with
          | .vstring t => (.ok (.vbool (listInfix t.toList s.toList)), st2)
          | _ => (.ok (.vbool false), st2)
        | _ => (.error .typeError, st2)
      | other => other
    | other => other
termination_by structural fuel

/-- `_evaluate_subscript` (lines 187-202): lists, tuples and strings accept a
numeric index with host indexing semantics; a non-numeric index is a TypeError
and anything else is not subscriptable. -/
def evaluate_subscript (fuel : Nat) (collE idxE : PiStatement) (env : Nat)
    (st : State) : Outcome × State :=
  match fuel with
  | 0 => (.timeout, st)
  | f+1 =>
    match evaluate_stmt f collE env st with
    | (.ok cv, st1) =>
      match evaluate_stmt f idxE env st1 with
      | (.ok iv, st2) =>
        match cv with
        | .vlist xs =>
          match iv with
          | .vnumber n =>
            match pyListGet xs n with
            | some v => (.ok v, st2)
            | none => (.error .indexError, st2)
          | _ => (.error .typeError, st2)
        | .vtuple xs =>
          match iv with
          | .vnumber n =>
            match pyListGet xs n with
            | some v => (.ok v, st2)
            | none => (.error .indexError, st2)
          | _ => (.error .typeError, st2)
        | .vstring s =>
          match iv with
          | .vnumber n =>
            match pyStrGet s n with
            | some c => (.ok (.vstring c), st2)
            | none => (.error .indexError, st2)
          | _ => (.error .typeError, st2)
        | _ => (.error .typeError, st2)
      | other => other
    | other => other
termination_by structural fuel

/-- `_evaluate_attribute` (lines 326-356): on an object instance, instance
attributes shadow class methods, and a found method is wrapped fresh into a
method closure bound to the instance; on a class, the method table yields the
unbound closure; anything else is a TypeError. -/
def evaluate_attribute (fuel : Nat) (objE : PiStatement) (attr : String)
    (env : Nat) (st : State) : Outcome × State :=
  match fuel with
  | 0 => (.timeout, st)
  | f+1 =>
    match evaluate_stmt f objE env st with
    | (.ok obj, st1) =>
      match obj with
      | .vobject r =>
        match (getObj st1 r).attributes.lookup attr with
        | some v => (.ok v, st1)
        | none =>
          match (getObj st1 r).class_def.methods.lookup attr with
          | some mc => (.ok (.vmethod mc.1 mc.2 r), st1)
          | none => (.error .attributeError, st1)
      | .vclass cd =>
        match cd.methods.lookup attr with
        | some mc => (.ok (.vclosure mc.1 mc.2), st1)
        | none => (.error .attributeError, st1)
      | _ => (.error .typeError, st1)
    | other => other
termination_by structural fuel

/-- `_evaluate_attribute_assignment` (lines 358-368): object evaluated, then
the value; only object instances accept attribute assignment, which overwrites
the instance's mapping and delivers the assigned value. -/
def evaluate_attribute_assignment (fuel : Nat) (objE : PiStatement)
    (attr : String) (valE : PiStatement) (env : Nat) (st : State) :
    Outcome × State :=
  match fuel with
  | 0 => (.timeout, st)
  | f+1 =>
    match evaluate_stmt f objE env st with
    | (.ok obj, st1) =>
      match evaluate_stmt f valE env st1 with
      | (.ok v, st2) =>
        match obj with
        | .vobject r => (.ok v, setAttr st2 r attr v)
        | _ => (.error .typeError, st2)
      | other => other
    | other => other
termination_by structural fuel

/-- `_evaluate_function_call` (lines 219-248): callee evaluated first, then the
arguments left to right in the caller's environment; a method closure
prepends its instance and proceeds as a plain function call; a class
constructs a fresh instance with an empty attribute map, runs `__init__` if
present (its return value discarded), and yields the instance; a function
closure is called; anything else is not callable.  (The host `callable` test
for primitive functions is not modelled, see the header.) -/
def evaluate_function_call (fuel : Nat) (fnE : PiStatement)
    (argEs : List PiStatement) (env : Nat) (st : State) : Outcome × State :=
  match fuel with
  | 0 => (.timeout, st)
  | f+1 =>
    match evaluate_stmt f fnE env st with
    | (.ok fv, st1) =>
      match eval_expr_list f argEs env st1 with
      | (.vals argVals, st2) =>
        match fv with
        | .vmethod fd ce r => call_function f fd ce (.vobject r :: argVals) st2
        | .vclass cd =>
          let objRef := st2.objects.length
          let st3 := addObject st2 ⟨cd, []⟩
          match cd.methods.lookup "__init__" with
          | some ic =>
            match call_method f ic.1 ic.2 objRef argVals st3 with
            | (.ok _, st4) => (.ok (.vobject objRef), st4)
            | other => other
          | none => (.ok (.vobject objRef), st3)
        | .vclosure fd ce => call_function f fd ce argVals st2
        | _ => (.error .typeError, st2)
      | (.fail o, st2) => (o, st2)
    | other => other
termination_by structural fuel

/-- `_call_function` (lines 273-304): fresh call frame parented at the
closure's captured frame, the binding phase (`bindAll`, reading the node's
current `arg_names`), then the body; a `ReturnException` is intercepted here
and carries the call's value, while a body that finishes delivers the loop's
`result` - the last executed statement's value, `None` for an empty body. -/
def call_function (fuel : Nat) (fd : FuncDef) (cenv : Nat) (args : List Value)
    (st : State) : Outcome × State :=
  match fuel with
  | 0 => (.timeout, st)
  | f+1 =>
    let callIdx := st.frames.length
    let st1 := addFrame st (some cenv)
    match bindAll (effArgNames st1 fd) fd.vararg args callIdx st1 with
    | .missing st2 => (.error .typeError, st2)
    | .toomany st2 => (.error .typeError, st2)
    | .bound st2 =>
      match evaluate_from f .vnone fd.body callIdx st2 with
      | (.ret v, st3) => (.ok v, st3)
      | other => other
termination_by structural fuel

/-- `_call_method` (lines 250-271), used only for `__init__`: fresh call frame;
then the in-place write `method.funcdef.arg_names[0] = 'self'` (a host
IndexError if the list is empty); `self` bound to the instance; the remaining
parameters bound positionally with no surplus check; then the body with
returns swallowed. -/
def call_method (fuel : Nat) (fd : FuncDef) (cenv : Nat) (inst : Nat)
    (args : List Value) (st : State) : Outcome × State :=
  match fuel with
  | 0 => (.timeout, st)
  | f+1 =>
    let callIdx := st.frames.length
    let st1 := addFrame st (some cenv)
    match effArgNames st1 fd with
    | [] => (.error .indexError, st1)
    | _ :: rest =>
      let st2 := setArgNames st1 fd.nodeId ("self" :: rest)
      let st3 := insertVar st2 callIdx "self" (.vobject inst)
      match bindPositional rest args callIdx st3 with
      | .missing st4 => (.error .typeError, st4)
      | .done st4 => call_method_body f fd.body .vnone callIdx st4
termination_by structural fuel

/-- The body loop of `_call_method` (lines 265-271): `result` starts at `None`,
each completed statement replaces it, and a `ReturnException` is swallowed
(`__init__` must not deliver a value), ending the loop with the previous
`result`. -/
def call_method_body (fuel : Nat) (stmts : List PiStatement) (result : Value)
    (env : Nat) (st : State) : Outcome × State :=
  match fuel with
  | 0 => (.timeout, st)
  | f+1 =>
    match stmts with
    | [] => (.ok result, st)
    | s :: rest =>
      match evaluate_stmt f s env st with
      | (.ok v, st1) => call_method_body f rest v env st1
      | (.ret _, st1) => (.ok result, st1)
      | other => other
termination_by structural fuel
end

/-- `evaluate(program, env)` on a program (ordered statement list). -/
def evaluate (fuel : Nat) (stmts : List PiStatement) (env : Nat) (st : State) :
    Outcome × State :=
  evaluate_from fuel .vnone stmts env st

/-- A whole top-level run: the program folded over the initial environment. -/
def runProg (fuel : Nat) (prog : List PiStatement) : Outcome × State :=
  evaluate fuel prog 0 initState

/-! ## General lemmas about the state primitives -/

theorem listModify_length {α : Type} (g : α → α) (i : Nat) (l : List α) :
    (listModify g i l).length = l.length := by
  induction l generalizing i with
  | nil => cases i <;> rfl
  | cons a rest ih =>
    cases i with
    | zero => rfl
    | succ j => simpa [listModify] using ih j

theorem listModify_get_self {α : Type} (g : α → α) (i : Nat) (l : List α) :
    (listModify g i l).get? i = (l.get? i).map g := by
  induction l generalizing i with
  | nil => cases i <;> rfl
  | cons a rest ih =>
    cases i with
    | zero => rfl
    | succ j => simpa [listModify] using ih j

theorem dictSet_lookup_self {β : Type} (l : List (String × β)) (k : String) (v : β) :
    (dictSet l k v).lookup k = some v := by
  induction l with
  | nil => simp [dictSet, List.lookup]
  | cons p rest ih =>
    cases p with
    | mk k0 v0 =>
      by_cases h : k0 = k
      · subst h
        simp [dictSet, List.lookup]
      · simp [dictSet, List.lookup, beq_eq_false_iff_ne.2 h,
          beq_eq_false_iff_ne.2 (Ne.symm h), ih]

theorem dictSet_lookup_other {β : Type} (l : List (String × β)) (k k' : String) (v : β)
    (h : k' ≠ k) : (dictSet l k v).lookup k' = l.lookup k' := by
  induction l with
  | nil => simp [dictSet, List.lookup, beq_eq_false_iff_ne.2 h]
  | cons p rest ih =>
    cases p with
    | mk k0 v0 =>
      by_cases h0 : k0 = k
      · subst h0
        simp [dictSet, List.lookup, beq_eq_false_iff_ne.2 h]
      · simp [dictSet, beq_eq_false_iff_ne.2 h0, List.lookup, ih]

theorem insertVar_frames_length (st : State) (idx : Nat) (n : String) (v : Value) :
    (insertVar st idx n v).frames.length = st.frames.length := by
  simp [insertVar, listModify_length]

/-- The own mapping of one frame (empty for a dangling index, which the
evaluator never produces). -/
def frameVars (st : State) (idx : Nat) : List (String × Value) :=
  match st.frames.get? idx with
  | some fr => fr.vars
  | none => []

theorem frameVars_insertVar_self (st : State) (idx : Nat) (n : String) (v : Value)
    (h : idx < st.frames.length) :
    frameVars (insertVar st idx n v) idx = dictSet (frameVars st idx) n v := by
  have hg : st.frames.get? idx = some (st.frames.get ⟨idx, h⟩) := List.get?_eq_get h
  unfold frameVars insertVar
  rw [listModify_get_self, hg]
  rfl

/-! ## Concrete programs used by counterexamples and witnesses -/

/-- `def f(): x = 5` then `f()`: the body finishes without a `return`. -/
def fdC1 : FuncDef := ⟨0, "f", [], none, [.piAssignment "x" (.piNumber 5)]⟩

def progC1 : List PiStatement :=
  [.piFunctionDef fdC1, .piFunctionCall (.piVariable "f") []]

/-- `class C: def __init__(me): pass` then `C()`: the constructor call rewrites
the parameter list of the `__init__` node. -/
def fdC2 : FuncDef := ⟨1, "__init__", ["me"], none, []⟩

def progC2 : List PiStatement :=
  [.piClassDef "C" [fdC2], .piFunctionCall (.piVariable "C") []]

/-- `class C: def __init__(self): pass` then `C(1)`: one surplus argument. -/
def fdC3 : FuncDef := ⟨2, "__init__", ["self"], none, []⟩

def progC3 : List PiStatement :=
  [.piClassDef "C" [fdC3], .piFunctionCall (.piVariable "C") [.piNumber 1]]

/-- `class D: def __init__(self): return 999` then `D()`. -/
def fdC4 : FuncDef := ⟨3, "__init__", ["self"], none, [.piReturn (.piNumber 999)]⟩

def progC4 : List PiStatement :=
  [.piClassDef "D" [fdC4], .piFunctionCall (.piVariable "D") []]

/-- `b = True` then `while b: x = 5; break`. -/
def progC5 : List PiStatement :=
  [.piAssignment "b" (.piBool true),
   .piWhile (.piVariable "b") [.piAssignment "x" (.piNumber 5), .piBreak]]

/-- `def g(): return x`, defined during the first iteration of the C7 loop. -/
def fdC7 : FuncDef := ⟨4, "g", [], none, [.piReturn (.piVariable "x")]⟩

/-- `first = True; for x in [1,2,3]: (if first: first = False; def g(): return x)`
then `g()`: the closure built in the first iteration is called after the loop. -/
def progC7 : List PiStatement :=
  [.piAssignment "first" (.piBool true),
   .piFor "x" (.piList [.piNumber 1, .piNumber 2, .piNumber 3])
     [.piIfThenElse (.piVariable "first")
       [.piAssignment "first" (.piBool false), .piFunctionDef fdC7] []],
   .piFunctionCall (.piVariable "g") []]

/-- `def f(a, *rest): return (a, rest)` then `f(1, 2, 3, 4)`. -/
def fdC9 : FuncDef := ⟨5, "f", ["a"], some "rest",
  [.piReturn (.piTuple [.piVariable "a", .piVariable "rest"])]⟩

def progC9 : List PiStatement :=
  [.piFunctionDef fdC9,
   .piFunctionCall (.piVariable "f")
     [.piNumber 1, .piNumber 2, .piNumber 3, .piNumber 4]]

/-! ## Claim C6: `and`/`or` short-circuiting -/

/-- Claim C6: for every pair of operand expressions, `and` returns the left
operand's value without evaluating the right operand when the left value is
falsy (the result and state do not depend on the right expression at all),
and otherwise evaluates and returns the right operand's value uncoerced; `or`
symmetrically returns a truthy left operand unevaluated-right, else the right
operand's value as-is. -/
theorem claim6_short_circuit (f : Nat) (l : PiStatement) (env : Nat)
    (st st1 : State) (lv : Value)
    (hl : evaluate_stmt f l env st = (.ok lv, st1))
    (hty : check_valid_piandor_type lv = true) :
    (isTruthy lv = false → ∀ r, evaluate_stmt (f+1) (.piAnd l r) env st = (.ok lv, st1)) ∧
    (∀ r rv st2, isTruthy lv = true → evaluate_stmt f r env st1 = (.ok rv, st2) →
      check_valid_piandor_type rv = true →
      evaluate_stmt (f+1) (.piAnd l r) env st = (.ok rv, st2)) ∧
    (isTruthy lv = true → ∀ r, evaluate_stmt (f+1) (.piOr l r) env st = (.ok lv, st1)) ∧
    (∀ r rv st2, isTruthy lv = false → evaluate_stmt f r env st1 = (.ok rv, st2) →
      check_valid_piandor_type rv = true →
      evaluate_stmt (f+1) (.piOr l r) env st = (.ok rv, st2)) := by
  refine ⟨?_, ?_, ?_, ?_⟩
  · intro hf r
    simp [evaluate_stmt, hl, hty, hf]
  · intro r rv st2 ht hr hrty
    simp [evaluate_stmt, hl, hty, ht, hr, hrty]
  · intro ht r
    simp [evaluate_stmt, hl, hty, ht]
  · intro r rv st2 hf hr hrty
    simp [evaluate_stmt, hl, hty, hf, hr, hrty]

/-- Claim C6 witness: `False and boom` and `True or boom` never touch the
unbound name `boom`; `True and 3` delivers the right operand uncoerced. -/
theorem claim6_witness :
    evaluate_stmt 6 (.piAnd (.piBool false) (.piVariable "boom")) 0 initState
      = (.ok (.vbool false), initState) ∧
    evaluate_stmt 6 (.piOr (.piBool true) (.piVariable "boom")) 0 initState
      = (.ok (.vbool true), initState) ∧
    evaluate_stmt 6 (.piAnd (.piBool true) (.piNumber 3)) 0 initState
      = (.ok (.vnumber 3), initState) :=
  ⟨(claim6_short_circuit 5 (.piBool false) 0 initState initState (.vbool false)
      rfl rfl).1 rfl _,
   (claim6_short_circuit 5 (.piBool true) 0 initState initState (.vbool true)
      rfl rfl).2.2.1 rfl _,
   (claim6_short_circuit 5 (.piBool true) 0 initState initState (.vbool true)
      rfl rfl).2.1 _ (.vnumber 3) initState rfl rfl rfl⟩

/-! ## Claim C8: membership tests -/

/-- Claim C8: for `e in c`, a list or tuple container yields a boolean testing
host value equality of `e` against the elements; a string container with a
string element tests substring containment; a string container with any
non-string element yields `False`, not an error; any other container kind is a
TypeError.  (The first conjunct ties the `in` node to its evaluation rule.) -/
theorem claim8_membership (f : Nat) (containerE elementE : PiStatement) (env : Nat)
    (st st1 st2 : State) (cv ev : Value)
    (hc : evaluate_stmt f containerE env st = (.ok cv, st1))
    (he : evaluate_stmt f elementE env st1 = (.ok ev, st2)) :
    evaluate_stmt (f+1) (.piIn containerE elementE) env st
      = evaluate_in f containerE elementE env st ∧
    (∀ xs, cv = .vlist xs →
      evaluate_in (f+1) containerE elementE env st
        = (.ok (.vbool (xs.any (fun w => pyEq ev w))), st2)) ∧
    (∀ xs, cv = .vtuple xs →
      evaluate_in (f+1) containerE elementE env st
        = (.ok (.vbool (xs.any (fun w => pyEq ev w))), st2)) ∧
    (∀ s t, cv = .vstring s → ev = .vstring t →
      evaluate_in (f+1) containerE elementE env st
        = (.ok (.vbool (listInfix t.toList s.toList)), st2)) ∧
    (∀ s, cv = .vstring s → (∀ t, ev ≠ .vstring t) →
      evaluate_in (f+1) containerE elementE env st = (.ok (.vbool false), st2)) ∧
    ((∀ xs, cv ≠ .vlist xs) → (∀ xs, cv ≠ .vtuple xs) → (∀ s, cv ≠ .vstring s) →
      evaluate_in (f+1) containerE elementE env st = (.error .typeError, st2)) := by
  refine ⟨rfl, ?_, ?_, ?_, ?_, ?_⟩
  · intro xs hxs
    subst hxs
    simp [evaluate_in, hc, he]
  · intro xs hxs
    subst hxs
    simp [evaluate_in, hc, he]
  · intro s t hs ht
    subst hs; subst ht
    simp [evaluate_in, hc, he]
  · intro s hs hnt
    subst hs
    cases ev <;> simp_all [evaluate_in, hc, he]
  · intro h1 h2 h3
    cases cv <;> simp_all [evaluate_in, hc, he]

/-- Claim C8 witness: `2 in [1,2,3]` is `True`; `"a" in "cat"` is `True`;
`5 in "hello"` is `False` (not an error); `2 in 7` is a TypeError. -/
theorem claim8_witness :
    evaluate_in 7 (.piList [.piNumber 1, .piNumber 2, .piNumber 3]) (.piNumber 2) 0 initState
      = (.ok (.vbool true), initState) ∧
    evaluate_in 7 (.piString "cat") (.piString "a") 0 initState
      = (.ok (.vbool true), initState) ∧
    evaluate_in 7 (.piString "hello") (.piNumber 5) 0 initState
      = (.ok (.vbool false), initState) ∧
    evaluate_in 7 (.piNumber 7) (.piNumber 2) 0 initState
      = (.error .typeError, initState) :=
  ⟨(claim8_membership 6 (.piList [.piNumber 1, .piNumber 2, .piNumber 3]) (.piNumber 2) 0
      initState initState initState
      (.vlist [.vnumber 1, .vnumber 2, .vnumber 3]) (.vnumber 2) rfl rfl).2.1 _ rfl,
   (claim8_membership 6 (.piString "cat") (.piString "a") 0 initState initState initState
      (.vstring "cat") (.vstring "a") rfl rfl).2.2.2.1 _ _ rfl rfl,
   (claim8_membership 6 (.piString "hello") (.piNumber 5) 0 initState initState initState
      (.vstring "hello") (.vnumber 5) rfl rfl).2.2.2.2.1 _ rfl (by intro t h; cases h),
   (claim8_membership 6 (.piNumber 7) (.piNumber 2) 0 initState initState initState
      (.vnumber 7) (.vnumber 2) rfl rfl).2.2.2.2.2
        (by intro xs h; cases h) (by intro xs h; cases h) (by intro s h; cases h)⟩

/-! ## Claim C10: negative indexing -/

theorem pyListGet_neg (xs : List Value) (n : Int) (h1 : n < 0)
    (h2 : -(xs.length : Int) ≤ n) :
    pyListGet xs n = xs[(n + xs.length).toNat]? := by
  simp only [pyListGet]
  rw [if_pos h1, if_neg (by omega)]
  simp [List.get?_eq_getElem?]

theorem pyStrGet_neg (s : String) (n : Int) (h1 : n < 0)
    (h2 : -(s.toList.length : Int) ≤ n) :
    pyStrGet s n
      = (s.toList[(n + s.toList.length).toNat]?).map (fun c => String.mk [c]) := by
  simp only [pyStrGet]
  rw [if_pos h1, if_neg (by omega)]
  simp [List.get?_eq_getElem?]

/-- Claim C10: subscripting a list, tuple or string with a negative
integer-valued index `n`, `-length ≤ n < 0`, delivers the element at position
`length + n` instead of raising.  (The first conjunct ties the subscript node
to its evaluation rule.) -/
theorem claim10_negative_subscript (f : Nat) (collE idxE : PiStatement) (env : Nat)
    (st st1 st2 : State) (cv : Value) (n : Int)
    (hc : evaluate_stmt f collE env st = (.ok cv, st1))
    (hi : evaluate_stmt f idxE env st1 = (.ok (.vnumber n), st2))
    (hneg : n < 0) :
    evaluate_stmt (f+1) (.piSubscript collE idxE) env st
      = evaluate_subscript f collE idxE env st ∧
    (∀ xs v, cv = .vlist xs → -(xs.length : Int) ≤ n →
      xs[(n + xs.length).toNat]? = some v →
      evaluate_subscript (f+1) collE idxE env st = (.ok v, st2)) ∧
    (∀ xs v, cv = .vtuple xs → -(xs.length : Int) ≤ n →
      xs[(n + xs.length).toNat]? = some v →
      evaluate_subscript (f+1) collE idxE env st = (.ok v, st2)) ∧
    (∀ s c, cv = .vstring s → -(s.toList.length : Int) ≤ n →
      s.toList[(n + s.toList.length).toNat]? = some c →
      evaluate_subscript (f+1) collE idxE env st
        = (.ok (.vstring (String.mk [c])), st2)) := by
  refine ⟨rfl, ?_, ?_, ?_⟩
  · intro xs v hxs hge hget
    subst hxs
    simp [evaluate_subscript, hc, hi, pyListGet_neg xs n hneg hge, hget]
  · intro xs v hxs hge hget
    subst hxs
    simp [evaluate_subscript, hc, hi, pyListGet_neg xs n hneg hge, hget]
  · intro s c hs hge hget
    subst hs
    have hp := pyStrGet_neg s n hneg hge
    rw [hget] at hp
    simp only [Option.map_some'] at hp
    simp [evaluate_subscript, hc, hi, hp]

/-- Claim C10 witness: `[10,20,30][-1]` is `30`; `(10,20)[-2]` is `10`;
`"abc"[-3]` is `"a"`. -/
theorem claim10_witness :
    evaluate_subscript 7 (.piList [.piNumber 10, .piNumber 20, .piNumber 30])
        (.piNumber (-1)) 0 initState = (.ok (.vnumber 30), initState) ∧
    evaluate_subscript 7 (.piTuple [.piNumber 10, .piNumber 20]) (.piNumber (-2)) 0 initState
      = (.ok (.vnumber 10), initState) ∧
    evaluate_subscript 7 (.piString "abc") (.piNumber (-3)) 0 initState
      = (.ok (.vstring "a"), initState) :=
  ⟨(claim10_negative_subscript 6 (.piList [.piNumber 10, .piNumber 20, .piNumber 30])
      (.piNumber (-1)) 0 initState initState initState
      (.vlist [.vnumber 10, .vnumber 20, .vnumber 30]) (-1) rfl rfl (by decide)).2.1
      _ _ rfl (by decide) rfl,
   (claim10_negative_subscript 6 (.piTuple [.piNumber 10, .piNumber 20]) (.piNumber (-2)) 0
      initState initState initState (.vtuple [.vnumber 10, .vnumber 20]) (-2)
      rfl rfl (by decide)).2.2.1 _ _ rfl (by decide) rfl,
   (claim10_negative_subscript 6 (.piString "abc") (.piNumber (-3)) 0 initState initState
      initState (.vstring "abc") (-3) rfl rfl (by decide)).2.2.2 _ _ rfl (by decide) rfl⟩

/-! ## Claim C5: while-loop result -/

/-- Claim C5 counterexample: in `b = True; while b: (x = 5; break)` the last
executed body statement is `x = 5` with value `5`, yet the loop (and the
program) delivers none - an iteration ended by `break` never updates
`last_value`, so the claim's reading fails on this input. -/
theorem claim5_counterexample :
    (runProg 20 progC5).1 = .ok .vnone ∧
    Outcome.ok Value.vnone ≠ Outcome.ok (Value.vnumber 5) :=
  ⟨rfl, by simp⟩

/-- Claim C5 (amended): the while loop's result is the value of the last body
iteration that ran to completion (each completed iteration contributes its
last statement's value), and none if no iteration completed; an iteration
ended by `break` or `continue` leaves the running result unchanged.  The first
conjunct ties the `while` node to the loop runner with the result seeded at
none (zero iterations yield none). -/
theorem claim5_loop_result (f : Nat) (condE : PiStatement) (body : List PiStatement)
    (last : Value) (env : Nat) (st st1 : State) :
    evaluate_stmt (f+1) (.piWhile condE body) env st
      = evaluate_while f condE body .vnone env st ∧
    (evaluate_stmt f condE env st = (.ok (.vbool false), st1) →
      evaluate_while (f+1) condE body last env st = (.ok last, st1)) ∧
    (∀ v st2, evaluate_stmt f condE env st = (.ok (.vbool true), st1) →
      evaluate_from f .vnone body env st1 = (.ok v, st2) →
      evaluate_while (f+1) condE body last env st
        = evaluate_while f condE body v env st2) ∧
    (∀ st2, evaluate_stmt f condE env st = (.ok (.vbool true), st1) →
      evaluate_from f .vnone body env st1 = (.brk, st2) →
      evaluate_while (f+1) condE body last env st = (.ok last, st2)) ∧
    (∀ st2, evaluate_stmt f condE env st = (.ok (.vbool true), st1) →
      evaluate_from f .vnone body env st1 = (.cont, st2) →
      evaluate_while (f+1) condE body last env st
        = evaluate_while f condE body last env st2) := by
  refine ⟨rfl, ?_, ?_, ?_, ?_⟩ <;> intros <;> simp [evaluate_while, *]

/-- State with `b` bound to `True` in the root frame. -/
def stC5a : State := ⟨[⟨[("b", .vbool true)], none⟩], [], []⟩

/-- `stC5a` after the body also bound `x` to `5`. -/
def stC5b : State := ⟨[⟨[("b", .vbool true), ("x", .vnumber 5)], none⟩], [], []⟩

/-- Claim C5 witness: one loop step of `while b: (x = 5; break)` from `stC5a`
ends the loop by `break` with the result still none, although the body
executed `x = 5`. -/
theorem claim5_witness :
    evaluate_while 10 (.piVariable "b") [.piAssignment "x" (.piNumber 5), .piBreak]
      .vnone 0 stC5a = (.ok .vnone, stC5b) :=
  (claim5_loop_result 9 (.piVariable "b") [.piAssignment "x" (.piNumber 5), .piBreak]
    .vnone 0 stC5a stC5a).2.2.2.1 stC5b rfl rfl

/-! ## Claim C1: call results and `return` -/

/-- Claim C1 counterexample: `def f(): x = 5` then `f()` - the body completes
without executing a `return`, and the call's result is `5` (the value of the
body's last executed statement), not none. -/
theorem claim1_counterexample :
    (runProg 20 progC1).1 = .ok (.vnumber 5) ∧
    Outcome.ok (Value.vnumber 5) ≠ Outcome.ok Value.vnone :=
  ⟨rfl, by simp⟩

/-- Claim C1 (amended): once the arguments are bound, a `return` executed in
the body raises a signal intercepted exactly at the call boundary, and the
call's result is the value it carries; a body that completes without a
`return` delivers the running statement-fold value - the value of the last
executed statement, with none only for an empty body. -/
theorem claim1_return_value (f : Nat) (fd : FuncDef) (cenv : Nat) (args : List Value)
    (st st2 : State)
    (hbind : bindAll (effArgNames (addFrame st (some cenv)) fd) fd.vararg args
        st.frames.length (addFrame st (some cenv)) = .bound st2) :
    (∀ v st3, evaluate_from f .vnone fd.body st.frames.length st2 = (.ret v, st3) →
      call_function (f+1) fd cenv args st = (.ok v, st3)) ∧
    (∀ v st3, evaluate_from f .vnone fd.body st.frames.length st2 = (.ok v, st3) →
      call_function (f+1) fd cenv args st = (.ok v, st3)) := by
  constructor <;> intro v st3 h <;> simp [call_function, hbind, h]

/-- `def h(): return 7`. -/
def fdC1w : FuncDef := ⟨6, "h", [], none, [.piReturn (.piNumber 7)]⟩

/-- The state after pushing an empty parameterless call frame over `initState`. -/
def stC1mid : State := ⟨[⟨[], none⟩, ⟨[], some 0⟩], [], []⟩

/-- Claim C1 witness: `h()` returns `7` through the `return` signal, and `f()`
(whose body is `x = 5` with no return) delivers `5`, the last statement's
value. -/
theorem claim1_witness :
    call_function 6 fdC1w 0 [] initState = (.ok (.vnumber 7), stC1mid) ∧
    call_function 6 fdC1 0 [] initState
      = (.ok (.vnumber 5), ⟨[⟨[], none⟩, ⟨[("x", .vnumber 5)], some 0⟩], [], []⟩) :=
  ⟨(claim1_return_value 5 fdC1w 0 [] initState stC1mid rfl).1 (.vnumber 7) stC1mid rfl,
   (claim1_return_value 5 fdC1 0 [] initState stC1mid rfl).2 (.vnumber 5) _ rfl⟩

/-! ## Claim C7: for-loop binding, closure sharing, iterable check -/

/-- Claim C7: every iteration of a `for` loop rebinds the induction variable
directly in the current frame via `insertVar st env var item` and runs the
body in that same frame `env`, with no per-iteration child scope (the binding
step creates no frame), so all closures created in the body capture the one
frame and, when called after the loop, observe its final element - witnessed
by the stored-closure program delivering `3`; a non-list, non-tuple iterable
is a TypeError.  The first conjunct is the dispatch equation, the second the
iteration unrolling. -/
theorem claim7_for_binding :
    (∀ f var iterE body env st,
      evaluate_stmt (f+1) (.piFor var iterE body) env st
        = evaluate_for f var iterE body env st) ∧
    (∀ f var body item items last env st,
      evaluate_for_items (f+1) var body (item :: items) last env st
        = (match evaluate_from f .vnone body env (insertVar st env var item) with
           | (.ok v, st2) => evaluate_for_items f var body items v env st2
           | (.brk, st2) => (.ok last, st2)
           | (.cont, st2) => evaluate_for_items f var body items last env st2
           | other => other)) ∧
    (∀ st env var item, (insertVar st env var (item : Value)).frames.length
      = st.frames.length) ∧
    (runProg 40 progC7).1 = .ok (.vnumber 3) ∧
    (∀ f var iterE body env st st1 v,
      evaluate_stmt f iterE env st = (.ok v, st1) →
      (∀ xs, v ≠ Value.vlist xs) → (∀ xs, v ≠ Value.vtuple xs) →
      evaluate_for (f+1) var iterE body env st = (.error .typeError, st1)) := by
  refine ⟨fun _ _ _ _ _ _ => rfl, fun _ _ _ _ _ _ _ _ => rfl,
    fun st env var item => insertVar_frames_length st env var item, rfl, ?_⟩
  intro f var iterE body env st st1 v hv h1 h2
  cases v <;> simp_all [evaluate_for]

/-- Claim C7 witness: a number is not iterable - the hypotheses of the
TypeError conjunct and of the unrolling hold at this concrete input. -/
theorem claim7_witness :
    evaluate_for 6 "x" (.piNumber 7) [] 0 initState = (.error .typeError, initState) :=
  claim7_for_binding.2.2.2.2 5 "x" (.piNumber 7) [] 0 initState initState
    (.vnumber 7) rfl (fun xs h => by cases h) (fun xs h => by cases h)

/-! ## Claim C9: variadic parameter binding -/

theorem bindAll_cons (n0 : String) (ns : List String) (va : Option String)
    (a0 : Value) (as' : List Value) (idx : Nat) (st : State) :
    bindAll (n0 :: ns) va (a0 :: as') idx st
      = bindAll ns va as' idx (insertVar st idx n0 a0) := by
  have h1 : bindPositional (n0 :: ns) (a0 :: as') idx st
      = bindPositional ns as' idx (insertVar st idx n0 a0) := rfl
  unfold bindAll
  rw [h1]
  cases bindPositional ns as' idx (insertVar st idx n0 a0) with
  | missing st1 => rfl
  | done st1 =>
    cases va with
    | none => simp [List.length_cons, Nat.succ_lt_succ_iff]
    | some vn => simp [List.drop_succ_cons]

theorem bindAll_lookup_untouched (ns : List String) (vn : String)
    (args : List Value) (idx : Nat) (st stb : State) (m : String)
    (hbound : bindAll ns (some vn) args idx st = .bound stb)
    (hm : m ∉ ns) (hvn : m ≠ vn) (hidx : idx < st.frames.length) :
    (frameVars stb idx).lookup m = (frameVars st idx).lookup m := by
  induction ns generalizing args st with
  | nil =>
    simp only [bindAll, bindPositional, BindRes.bound.injEq] at hbound
    subst hbound
    rw [frameVars_insertVar_self st idx vn _ hidx, dictSet_lookup_other _ _ _ _ hvn]
  | cons n0 ns' ih =>
    cases args with
    | nil => simp [bindAll, bindPositional] at hbound
    | cons a0 as' =>
      rw [bindAll_cons] at hbound
      have hm' : m ∉ ns' := fun h => hm (List.mem_cons_of_mem _ h)
      have hm0 : m ≠ n0 := fun h => hm (h ▸ List.mem_cons_self _ _)
      have hidx' : idx < (insertVar st idx n0 a0).frames.length := by
        rwa [insertVar_frames_length]
      have := ih as' (insertVar st idx n0 a0) hbound hm' hidx'
      rw [this, frameVars_insertVar_self st idx n0 a0 hidx,
        dictSet_lookup_other _ _ _ _ hm0]

/-- Claim C9: a call of a function with fixed parameters followed by a
variadic parameter binds the fixed names by position and the variadic name to
the list of all remaining arguments in order (shown on the binding phase of
`_call_function`, for every argument list covering the fixed parameters), and
`f(a, *rest)` called on `1,2,3,4` delivers `a = 1`, `rest = [2,3,4]`. -/
theorem claim9_variadic_binding :
    (runProg 30 progC9).1
      = .ok (.vtuple [.vnumber 1, .vlist [.vnumber 2, .vnumber 3, .vnumber 4]]) ∧
    (∀ (ns : List String) (vn : String) (args : List Value) (idx : Nat)
      (st stb : State), ns.Nodup → vn ∉ ns → ns.length ≤ args.length →
      idx < st.frames.length →
      bindAll ns (some vn) args idx st = .bound stb →
      (∀ i (hi : i < ns.length) (hj : i < args.length),
        (frameVars stb idx).lookup ns[i] = some args[i]) ∧
      (frameVars stb idx).lookup vn = some (.vlist (args.drop ns.length))) := by
  refine ⟨rfl, ?_⟩
  intro ns
  induction ns with
  | nil =>
    intro vn args idx st stb _ _ _ hidx hbound
    simp only [bindAll, bindPositional, BindRes.bound.injEq] at hbound
    subst hbound
    refine ⟨fun i hi => absurd hi (by simp), ?_⟩
    rw [frameVars_insertVar_self st idx vn _ hidx, dictSet_lookup_self]
  | cons n0 ns' ih =>
    intro vn args idx st stb hnd hvn hlen hidx hbound
    cases args with
    | nil => simp at hlen
    | cons a0 as' =>
      rw [bindAll_cons] at hbound
      have hnd' : ns'.Nodup := hnd.of_cons
      have hn0 : n0 ∉ ns' := (List.nodup_cons.1 hnd).1
      have hvn' : vn ∉ ns' := fun h => hvn (List.mem_cons_of_mem _ h)
      have hvn0 : vn ≠ n0 := fun h => hvn (h ▸ List.mem_cons_self _ _)
      have hlen' : ns'.length ≤ as'.length := by simpa using hlen
      have hidx' : idx < (insertVar st idx n0 a0).frames.length := by
        rwa [insertVar_frames_length]
      obtain ⟨ihA, ihB⟩ := ih vn as' idx (insertVar st idx n0 a0) stb hnd' hvn'
        hlen' hidx' hbound
      refine ⟨?_, by simpa using ihB⟩
      intro i hi hj
      cases i with
      | zero =>
        have hstep := bindAll_lookup_untouched ns' vn as' idx
          (insertVar st idx n0 a0) stb n0 hbound hn0 (Ne.symm hvn0) hidx'
        simp only [List.getElem_cons_zero]
        rw [hstep, frameVars_insertVar_self st idx n0 a0 hidx, dictSet_lookup_self]
      | succ j =>
        have hj' : j < as'.length := by simpa using hj
        have hi' : j < ns'.length := by simpa using hi
        simpa using ihA j hi' hj'

/-- The root frame of `initState` after the C9 witness binding. -/
def stC9w : State :=
  ⟨[⟨[("a", .vnumber 1), ("rest", .vlist [.vnumber 2, .vnumber 3, .vnumber 4])],
    none⟩], [], []⟩

/-- Claim C9 witness: binding `["a"]` with variadic `rest` against arguments
`1,2,3,4` into the root frame of `initState` yields `a = 1` and
`rest = [2,3,4]`. -/
theorem claim9_witness :
    (frameVars stC9w 0).lookup "a" = some (.vnumber 1) ∧
    (frameVars stC9w 0).lookup "rest"
      = some (.vlist [.vnumber 2, .vnumber 3, .vnumber 4]) := by
  have h := claim9_variadic_binding.2 ["a"] "rest"
    [.vnumber 1, .vnumber 2, .vnumber 3, .vnumber 4] 0 initState stC9w
    (by decide) (by decide) (by decide) (by decide) rfl
  exact ⟨by simpa using h.1 0 (by decide) (by decide), h.2⟩

/-! ## Claim C3: arity errors -/

theorem effArgNames_addFrame (st : State) (p : Option Nat) (fd : FuncDef) :
    effArgNames (addFrame st p) fd = effArgNames st fd := rfl

theorem effArgNames_withBody (st : State) (fd : FuncDef) (b : List PiStatement) :
    effArgNames st (fd.withBody b) = effArgNames st fd := by
  cases fd; rfl

theorem withBody_vararg (fd : FuncDef) (b : List PiStatement) :
    (fd.withBody b).vararg = fd.vararg := by
  cases fd; rfl

theorem withBody_nodeId (fd : FuncDef) (b : List PiStatement) :
    (fd.withBody b).nodeId = fd.nodeId := by
  cases fd; rfl

theorem withBody_body (fd : FuncDef) (b : List PiStatement) :
    (fd.withBody b).body = b := by
  cases fd; rfl

theorem bindPositional_missing (ns : List String) (args : List Value) (idx : Nat)
    (st : State) (h : args.length < ns.length) :
    ∃ st', bindPositional ns args idx st = .missing st' := by
  induction ns generalizing args st with
  | nil => simp at h
  | cons n0 ns' ih =>
    cases args with
    | nil => exact ⟨st, rfl⟩
    | cons a0 as' => exact ih as' (insertVar st idx n0 a0) (by simpa using h)

theorem bindPositional_done (ns : List String) (args : List Value) (idx : Nat)
    (st : State) (h : ns.length ≤ args.length) :
    ∃ st', bindPositional ns args idx st = .done st' := by
  induction ns generalizing args st with
  | nil => exact ⟨st, rfl⟩
  | cons n0 ns' ih =>
    cases args with
    | nil => simp at h
    | cons a0 as' => exact ih as' (insertVar st idx n0 a0) (by simpa using h)

theorem bindPositional_take (ns : List String) (args : List Value) (idx : Nat)
    (st : State) :
    bindPositional ns (args.take ns.length) idx st = bindPositional ns args idx st := by
  induction ns generalizing args st with
  | nil => rfl
  | cons n0 ns' ih =>
    cases args with
    | nil => rfl
    | cons a0 as' =>
      rw [List.length_cons, List.take_succ_cons]
      exact ih as' (insertVar st idx n0 a0)

/-- Claim C3 counterexample: `class C: def __init__(self): pass` then `C(1)` -
one surplus argument forwarded to `__init__` raises nothing: the construction
succeeds and yields the instance, where the claim demands a TypeError. -/
theorem claim3_counterexample :
    (runProg 30 progC3).1 = .ok (.vobject 0) ∧
    Outcome.ok (Value.vobject 0) ≠ Outcome.error EvalError.typeError :=
  ⟨rfl, by simp⟩

/-- Claim C3 (amended): for user-defined function (and method) calls, fewer
arguments than the declared parameters raise a TypeError eagerly - the result
does not depend on the body at all - and surplus arguments without a variadic
parameter likewise raise a TypeError before the body; a constructor call
forwarding to `__init__` raises the missing-argument TypeError, again before
the body (third conjunct: fewer arguments than the post-`self` parameters make
`call_method` answer a TypeError whatever the body is), but silently ignores
surplus arguments: the call behaves exactly as if the argument list were
truncated to the declared post-`self` parameter count (fourth conjunct). -/
theorem claim3_arity_errors :
    (∀ f fd cenv (args : List Value) st,
      args.length < (effArgNames st fd).length →
      (call_function (f+1) fd cenv args st).1 = .error .typeError ∧
      ∀ b2, call_function (f+1) (fd.withBody b2) cenv args st
        = call_function (f+1) fd cenv args st) ∧
    (∀ f fd cenv (args : List Value) st, fd.vararg = none →
      (effArgNames st fd).length < args.length →
      (call_function (f+1) fd cenv args st).1 = .error .typeError ∧
      ∀ b2, call_function (f+1) (fd.withBody b2) cenv args st
        = call_function (f+1) fd cenv args st) ∧
    (∀ f fd cenv inst (args : List Value) st n0 rest,
      effArgNames st fd = n0 :: rest →
      args.length < rest.length →
      (call_method (f+1) fd cenv inst args st).1 = .error .typeError ∧
      ∀ b2, call_method (f+1) (fd.withBody b2) cenv inst args st
        = call_method (f+1) fd cenv inst args st) ∧
    (∀ f fd cenv inst (args : List Value) st,
      call_method f fd cenv inst args st
        = call_method f fd cenv inst (args.take (effArgNames st fd).tail.length) st) := by
  refine ⟨?_, ?_, ?_, ?_⟩
  · intro f fd cenv args st h
    obtain ⟨st', hmiss⟩ := bindPositional_missing (effArgNames st fd) args
      st.frames.length (addFrame st (some cenv)) h
    constructor
    · simp [call_function, bindAll, effArgNames_addFrame, hmiss]
    · intro b2
      simp [call_function, bindAll, effArgNames_addFrame, effArgNames_withBody,
        hmiss]
  · intro f fd cenv args st hva h
    obtain ⟨st', hdone⟩ := bindPositional_done (effArgNames st fd) args
      st.frames.length (addFrame st (some cenv)) (le_of_lt h)
    constructor
    · simp [call_function, bindAll, effArgNames_addFrame, hdone, hva, h]
    · intro b2
      simp [call_function, bindAll, effArgNames_addFrame, effArgNames_withBody,
        withBody_vararg, hdone, hva, h]
  · intro f fd cenv inst args st n0 rest heff hlen
    obtain ⟨st', hmiss⟩ := bindPositional_missing rest args st.frames.length
      (insertVar (setArgNames (addFrame st (some cenv)) fd.nodeId ("self" :: rest))
        st.frames.length "self" (.vobject inst)) hlen
    constructor
    · simp [call_method, effArgNames_addFrame, heff, hmiss]
    · intro b2
      simp [call_method, effArgNames_addFrame, effArgNames_withBody,
        withBody_nodeId, heff, hmiss]
  · intro f fd cenv inst args st
    cases f with
    | zero => rfl
    | succ f' =>
      cases heff : effArgNames st fd with
      | nil => simp [call_method, effArgNames_addFrame, heff]
      | cons n0 rest =>
        simp [call_method, effArgNames_addFrame, heff, bindPositional_take]

/-- `def g2(a, b): pass`: two fixed parameters, no variadic. -/
def fdC3w : FuncDef := ⟨7, "g2", ["a", "b"], none, []⟩

/-- `def __init__(self, y): pass`: one post-`self` parameter. -/
def fdC3m : FuncDef := ⟨8, "__init__", ["self", "y"], none, []⟩

/-- Claim C3 witness: `g2(1)` and `g2(1,2,3)` both raise a TypeError;
forwarding no argument to the two-parameter `__init__` of `fdC3m` raises the
missing-argument TypeError; and a surplus argument to the one-parameter
`__init__` of `fdC3` is ignored - the call equals the call with no
(surviving) extra argument. -/
theorem claim3_witness :
    (call_function 6 fdC3w 0 [.vnumber 1] initState).1 = .error .typeError ∧
    (call_function 6 fdC3w 0 [.vnumber 1, .vnumber 2, .vnumber 3] initState).1
      = .error .typeError ∧
    (call_method 6 fdC3m 1 0 [] initState).1 = .error .typeError ∧
    call_method 6 fdC3 1 0 [.vnumber 9] initState = call_method 6 fdC3 1 0 [] initState :=
  ⟨(claim3_arity_errors.1 5 fdC3w 0 [.vnumber 1] initState (by decide)).1,
   (claim3_arity_errors.2.1 5 fdC3w 0 [.vnumber 1, .vnumber 2, .vnumber 3]
      initState rfl (by decide)).1,
   (claim3_arity_errors.2.2.1 5 fdC3m 1 0 [] initState "self" ["y"] rfl
      (by decide)).1,
   claim3_arity_errors.2.2.2 6 fdC3 1 0 [.vnumber 9] initState⟩

/-! ## Claim C4: class construction -/

/-- Claim C4: a call whose callee is a class definition constructs a fresh
object (its reference unused in the store beforehand) with an empty attribute
mapping; with no `__init__` the new instance is the result outright; with an
`__init__` the method is invoked on the new instance plus the supplied
arguments, and whatever value it produces is discarded - the instance is the
call's result. -/
theorem claim4_constructor (f : Nat) (fnE : PiStatement) (argEs : List PiStatement)
    (env : Nat) (st st1 st2 : State) (cd : ClassDefV) (avs : List Value)
    (h1 : evaluate_stmt f fnE env st = (.ok (.vclass cd), st1))
    (h2 : eval_expr_list f argEs env st1 = (.vals avs, st2)) :
    st2.objects.get? st2.objects.length = none ∧
    (addObject st2 ⟨cd, []⟩).objects.get? st2.objects.length = some ⟨cd, []⟩ ∧
    (cd.methods.lookup "__init__" = none →
      evaluate_function_call (f+1) fnE argEs env st
        = (.ok (.vobject st2.objects.length), addObject st2 ⟨cd, []⟩)) ∧
    (∀ ifd ice w st4, cd.methods.lookup "__init__" = some (ifd, ice) →
      call_method f ifd ice st2.objects.length avs (addObject st2 ⟨cd, []⟩)
        = (.ok w, st4) →
      evaluate_function_call (f+1) fnE argEs env st
        = (.ok (.vobject st2.objects.length), st4)) := by
  refine ⟨List.get?_eq_none.2 le_rfl, ?_, ?_, ?_⟩
  · simp [addObject, List.getElem?_concat_length, List.get?_eq_getElem?]
  · intro hinit
    simp [evaluate_function_call, h1, h2, addObject, hinit]
  · intro ifd ice w st4 hinit hcm
    simp [evaluate_function_call, h1, h2, hinit, hcm]

/-- The class value of `progC4`. -/
def cdC4 : ClassDefV := ⟨"D", [("__init__", (fdC4, 1))]⟩

/-- The state after evaluating the class definition of `progC4`. -/
def stC4a : State := ⟨[⟨[("D", .vclass cdC4)], none⟩, ⟨[], some 0⟩], [], []⟩

/-- The state after `D()` finished: `__init__`'s call frame holds `self`, the
store holds the fresh instance with no attributes, and the `__init__` node's
parameter list was rewritten to `["self"]`. -/
def stC4b : State :=
  ⟨[⟨[("D", .vclass cdC4)], none⟩, ⟨[], some 0⟩, ⟨[("self", .vobject 0)], some 1⟩],
   [⟨cdC4, []⟩], [(3, ["self"])]⟩

/-- Claim C4 witness: `D()` whose `__init__` returns `999` still yields the
constructed instance, and the whole program `progC4` confirms it end to end. -/
theorem claim4_witness :
    evaluate_function_call 11 (.piVariable "D") [] 0 stC4a
      = (.ok (.vobject 0), stC4b) ∧
    (runProg 30 progC4).1 = .ok (.vobject 0) :=
  ⟨(claim4_constructor 10 (.piVariable "D") [] 0 stC4a stC4a stC4a cdC4 []
      rfl rfl).2.2.2 fdC4 1 .vnone stC4b rfl rfl, rfl⟩

/-! ## Claim C2: AST mutation -/

/-- A definition node whose current parameter-name list equals its parse-time
contents - i.e. the node is (still) equal to what the parser produced. -/
def astNodeUnchanged (st : State) (fd : FuncDef) : Prop :=
  effArgNames st fd = fd.arg_names

/-- All entries of an `astArgNames` table hold lists starting with `"self"`:
the only shape of parameter-name list the evaluator ever writes. -/
def ArgTableSelf (t : List (Nat × List String)) : Prop :=
  ∀ p ∈ t, p.2.head? = some "self"

/-- Claim C2 counterexample: running `class C: def __init__(me): pass; C()`
rewrites the `__init__` node's parameter-name list from `["me"]` to `["self"]`:
after evaluation the node is not equal to what it was before. -/
theorem claim2_counterexample :
    fdC2.arg_names = ["me"] ∧
    effArgNames (runProg 30 progC2).2 fdC2 = ["self"] ∧
    ¬ astNodeUnchanged (runProg 30 progC2).2 fdC2 := by
  refine ⟨rfl, rfl, ?_⟩
  intro h
  have h2 : (["self"] : List String) = ["me"] := by
    calc (["self"] : List String)
        = effArgNames (runProg 30 progC2).2 fdC2 := rfl
      _ = fdC2.arg_names := h
      _ = ["me"] := rfl
  simp at h2

theorem mem_dictSet {α β : Type} [BEq α] [LawfulBEq α] (l : List (α × β)) (k : α)
    (v : β) (p : α × β) (hp : p ∈ dictSet l k v) : p ∈ l ∨ p = (k, v) := by
  induction l with
  | nil =>
    simp [dictSet] at hp
    right; exact hp
  | cons q rest ih =>
    cases q with
    | mk k0 v0 =>
      cases hk : k0 == k with
      | true =>
        simp [dictSet, hk] at hp
        rcases hp with hp | hp
        · right; rw [hp, eq_of_beq hk]
        · left; exact List.mem_cons_of_mem _ hp
      | false =>
        simp [dictSet, hk] at hp
        rcases hp with hp | hp
        · left; rw [hp]; exact List.mem_cons_self _ _
        · rcases ih hp with h1 | h1
          · left; exact List.mem_cons_of_mem _ h1
          · right; exact h1

theorem ArgTableSelf_dictSet {t : List (Nat × List String)} (i : Nat)
    (rest : List String) (h : ArgTableSelf t) :
    ArgTableSelf (dictSet t i ("self" :: rest)) := by
  intro p hp
  rcases mem_dictSet t i _ p hp with h1 | h1
  · exact h p h1
  · subst h1; rfl

/-- The state carried by the result of the positional-binding loop. -/
def BindPosRes.state : BindPosRes → State
  | .done st => st
  | .missing st => st

/-- The state carried by the result of the binding phase. -/
def BindRes.state : BindRes → State
  | .bound st => st
  | .missing st => st
  | .toomany st => st

theorem bindPositional_state_astArgNames (ns : List String) (args : List Value)
    (idx : Nat) (st : State) :
    ((bindPositional ns args idx st).state).astArgNames = st.astArgNames := by
  induction ns generalizing args st with
  | nil => rfl
  | cons n0 ns' ih =>
    cases args with
    | nil => rfl
    | cons a0 as' => exact ih as' (insertVar st idx n0 a0)

theorem bindAll_state_astArgNames (ns : List String) (va : Option String)
    (args : List Value) (idx : Nat) (st : State) :
    ((bindAll ns va args idx st).state).astArgNames = st.astArgNames := by
  have hb := bindPositional_state_astArgNames ns args idx st
  cases hp : bindPositional ns args idx st with
  | missing st1 =>
    rw [hp] at hb
    simp only [bindAll, hp]
    exact hb
  | done st1 =>
    rw [hp] at hb
    cases va with
    | some vn =>
      simp only [bindAll, hp]
      exact hb
    | none =>
      simp only [bindAll, hp]
      split <;> exact hb

/-- The induction pack behind claim C2: every evaluation function preserves
the invariant that each parameter-name list recorded in `astArgNames` - each
list the evaluator has mutated - begins with `"self"`.  The only write is
`setArgNames` in `call_method`, whose value is `"self" :: rest`. -/
theorem selfTable_pack : ∀ fuel : Nat,
    (∀ node env st, ArgTableSelf st.astArgNames →
      ArgTableSelf (evaluate_stmt fuel node env st).2.astArgNames) ∧
    (∀ last stmts env st, ArgTableSelf st.astArgNames →
      ArgTableSelf (evaluate_from fuel last stmts env st).2.astArgNames) ∧
    (∀ exprs env st, ArgTableSelf st.astArgNames →
      ArgTableSelf (eval_expr_list fuel exprs env st).2.astArgNames) ∧
    (∀ condE body last env st, ArgTableSelf st.astArgNames →
      ArgTableSelf (evaluate_while fuel condE body last env st).2.astArgNames) ∧
    (∀ var iterE body env st, ArgTableSelf st.astArgNames →
      ArgTableSelf (evaluate_for fuel var iterE body env st).2.astArgNames) ∧
    (∀ var body items last env st, ArgTableSelf st.astArgNames →
      ArgTableSelf (evaluate_for_items fuel var body items last env st).2.astArgNames) ∧
    (∀ cE eE env st, ArgTableSelf st.astArgNames →
      ArgTableSelf (evaluate_in fuel cE eE env st).2.astArgNames) ∧
    (∀ cE iE env st, ArgTableSelf st.astArgNames →
      ArgTableSelf (evaluate_subscript fuel cE iE env st).2.astArgNames) ∧
    (∀ objE attr env st, ArgTableSelf st.astArgNames →
      ArgTableSelf (evaluate_attribute fuel objE attr env st).2.astArgNames) ∧
    (∀ objE attr valE env st, ArgTableSelf st.astArgNames →
      ArgTableSelf (evaluate_attribute_assignment fuel objE attr valE env st).2.astArgNames) ∧
    (∀ fnE argEs env st, ArgTableSelf st.astArgNames →
      ArgTableSelf (evaluate_function_call fuel fnE argEs env st).2.astArgNames) ∧
    (∀ fd cenv args st, ArgTableSelf st.astArgNames →
      ArgTableSelf (call_function fuel fd cenv args st).2.astArgNames) ∧
    (∀ fd cenv inst args st, ArgTableSelf st.astArgNames →
      ArgTableSelf (call_method fuel fd cenv inst args st).2.astArgNames) ∧
    (∀ stmts result env st, ArgTableSelf st.astArgNames →
      ArgTableSelf (call_method_body fuel stmts result env st).2.astArgNames) := by
  intro fuel
  induction fuel with
  | zero =>
    exact ⟨fun _ _ _ h => h, fun _ _ _ _ h => h, fun _ _ _ h => h,
      fun _ _ _ _ _ h => h, fun _ _ _ _ _ h => h, fun _ _ _ _ _ _ h => h,
      fun _ _ _ _ h => h, fun _ _ _ _ h => h, fun _ _ _ _ h => h,
      fun _ _ _ _ _ h => h, fun _ _ _ _ h => h, fun _ _ _ _ h => h,
      fun _ _ _ _ _ h => h, fun _ _ _ _ h => h⟩
  | succ f ih =>
    obtain ⟨ihStmt, ihFrom, ihExpr, ihWhile, ihFor, ihItems, ihIn, ihSub, ihAttr,
      ihAsgn, ihCall, ihCallFn, ihCallM, ihBody⟩ := ih
    refine ⟨?_, ?_, ?_, ?_, ?_, ?_, ?_, ?_, ?_, ?_, ?_, ?_, ?_, ?_⟩
    · intro node env st h
      cases node with
      | piNumber v => exact h
      | piClassDef name methods => exact h
      | piAttribute objE attr => exact ihAttr objE attr env st h
      | piAttributeAssignment objE attr valE => exact ihAsgn objE attr valE env st h
      | piBool b => exact h
      | piNone => exact h
      | piString s => exact h
      | piList elems =>
        rcases hE : eval_expr_list f elems env st with ⟨lo, st1⟩
        have hx := ihExpr elems env st h
        rw [hE] at hx
        cases lo <;> simp only [evaluate_stmt, hE] <;> exact hx
      | piTuple elems =>
        rcases hE : eval_expr_list f elems env st with ⟨lo, st1⟩
        have hx := ihExpr elems env st h
        rw [hE] at hx
        cases lo <;> simp only [evaluate_stmt, hE] <;> exact hx
      | piVariable name =>
        simp only [evaluate_stmt]
        split <;> exact h
      | piBinaryOperation op l r =>
        exact ihStmt (.piFunctionCall (.piVariable op) [l, r]) env st h
      | piAssignment name valE =>
        rcases hv : evaluate_stmt f valE env st with ⟨o, st1⟩
        have hx := ihStmt valE env st h
        rw [hv] at hx
        cases o <;> simp only [evaluate_stmt, hv] <;> exact hx
      | piIfThenElse condE thenB elseB =>
        rcases hcnd : evaluate_stmt f condE env st with ⟨o, st1⟩
        have hx := ihStmt condE env st h
        rw [hcnd] at hx
        cases o
        case ok c =>
          simp only [evaluate_stmt, hcnd]
          split
          · exact ihFrom .vnone _ env st1 hx
          · exact hx
        all_goals simp only [evaluate_stmt, hcnd]; exact hx
      | piNot opE =>
        rcases hv : evaluate_stmt f opE env st with ⟨o, st1⟩
        have hx := ihStmt opE env st h
        rw [hv] at hx
        cases o <;> simp only [evaluate_stmt, hv] <;> (repeat' split) <;> exact hx
      | piAnd l r =>
        rcases hc : evaluate_stmt f l env st with ⟨o, st1⟩
        have hx := ihStmt l env st h
        rw [hc] at hx
        cases o
        case ok lv =>
          rcases hr : evaluate_stmt f r env st1 with ⟨o2, st2⟩
          have hx2 := ihStmt r env st1 hx
          rw [hr] at hx2
          cases o2 <;> simp only [evaluate_stmt, hc, hr] <;> (repeat' split) <;>
            first | exact hx | exact hx2
        all_goals simp only [evaluate_stmt, hc]; exact hx
      | piOr l r =>
        rcases hc : evaluate_stmt f l env st with ⟨o, st1⟩
        have hx := ihStmt l env st h
        rw [hc] at hx
        cases o
        case ok lv =>
          rcases hr : evaluate_stmt f r env st1 with ⟨o2, st2⟩
          have hx2 := ihStmt r env st1 hx
          rw [hr] at hx2
          cases o2 <;> simp only [evaluate_stmt, hc, hr] <;> (repeat' split) <;>
            first | exact hx | exact hx2
        all_goals simp only [evaluate_stmt, hc]; exact hx
      | piWhile condE body => exact ihWhile condE body .vnone env st h
      | piFunctionDef fd => exact h
      | piReturn valE =>
        rcases hv : evaluate_stmt f valE env st with ⟨o, st1⟩
        have hx := ihStmt valE env st h
        rw [hv] at hx
        cases o <;> simp only [evaluate_stmt, hv] <;> exact hx
      | piFunctionCall fnE argEs => exact ihCall fnE argEs env st h
      | piFor var iterE body => exact ihFor var iterE body env st h
      | piBreak => exact h
      | piContinue => exact h
      | piIn cE eE => exact ihIn cE eE env st h
      | piSubscript cE iE => exact ihSub cE iE env st h
    · intro last stmts env st h
      cases stmts with
      | nil => exact h
      | cons s rest =>
        rcases hs : evaluate_stmt f s env st with ⟨o, st1⟩
        have hx := ihStmt s env st h
        rw [hs] at hx
        cases o
        case ok v =>
          simp only [evaluate_from, hs]
          exact ihFrom v rest env st1 hx
        all_goals simp only [evaluate_from, hs]; exact hx
    · intro exprs env st h
      cases exprs with
      | nil => exact h
      | cons e rest =>
        rcases he : evaluate_stmt f e env st with ⟨o, st1⟩
        have hx := ihStmt e env st h
        rw [he] at hx
        cases o
        case ok v =>
          rcases hrest : eval_expr_list f rest env st1 with ⟨lo, st2⟩
          have hx2 := ihExpr rest env st1 hx
          rw [hrest] at hx2
          cases lo <;> simp only [eval_expr_list, he, hrest] <;> exact hx2
        all_goals simp only [eval_expr_list, he]; exact hx
    · intro condE body last env st h
      rcases hcnd : evaluate_stmt f condE env st with ⟨o, st1⟩
      have hx := ihStmt condE env st h
      rw [hcnd] at hx
      cases o
      case ok c =>
        rcases hb : evaluate_from f .vnone body env st1 with ⟨o2, st2⟩
        have hx2 := ihFrom .vnone body env st1 hx
        rw [hb] at hx2
        cases o2 <;> simp only [evaluate_while, hcnd, hb] <;> (repeat' split) <;>
          first
            | exact ihWhile condE body _ env st2 hx2
            | exact hx
            | exact hx2
      all_goals simp only [evaluate_while, hcnd]; exact hx
    · intro var iterE body env st h
      rcases hit : evaluate_stmt f iterE env st with ⟨o, st1⟩
      have hx := ihStmt iterE env st h
      rw [hit] at hx
      cases o
      case ok v =>
        cases v <;> simp only [evaluate_for, hit] <;>
          first
            | exact ihItems var body _ .vnone env st1 hx
            | exact hx
      all_goals simp only [evaluate_for, hit]; exact hx
    · intro var body items last env st h
      cases items with
      | nil => exact h
      | cons item rest =>
        rcases hb : evaluate_from f .vnone body env (insertVar st env var item)
          with ⟨o, st2⟩
        have hx := ihFrom .vnone body env (insertVar st env var item) h
        rw [hb] at hx
        cases o <;> simp only [evaluate_for_items, hb] <;>
          first
            | exact ihItems var body rest _ env st2 hx
            | exact hx
    · intro cE eE env st h
      rcases hc : evaluate_stmt f cE env st with ⟨o, st1⟩
      have hx := ihStmt cE env st h
      rw [hc] at hx
      cases o
      case ok cv =>
        rcases he : evaluate_stmt f eE env st1 with ⟨o2, st2⟩
        have hx2 := ihStmt eE env st1 hx
        rw [he] at hx2
        cases o2 <;> simp only [evaluate_in, hc, he] <;> (repeat' split) <;> exact hx2
      all_goals simp only [evaluate_in, hc]; exact hx
    · intro cE iE env st h
      rcases hc : evaluate_stmt f cE env st with ⟨o, st1⟩
      have hx := ihStmt cE env st h
      rw [hc] at hx
      cases o
      case ok cv =>
        rcases hi : evaluate_stmt f iE env st1 with ⟨o2, st2⟩
        have hx2 := ihStmt iE env st1 hx
        rw [hi] at hx2
        cases o2 <;> simp only [evaluate_subscript, hc, hi] <;> (repeat' split) <;>
          exact hx2
      all_goals simp only [evaluate_subscript, hc]; exact hx
    · intro objE attr env st h
      rcases ho : evaluate_stmt f objE env st with ⟨o, st1⟩
      have hx := ihStmt objE env st h
      rw [ho] at hx
      cases o <;> simp only [evaluate_attribute, ho] <;> (repeat' split) <;> exact hx
    · intro objE attr valE env st h
      rcases ho : evaluate_stmt f objE env st with ⟨o, st1⟩
      have hx := ihStmt objE env st h
      rw [ho] at hx
      cases o
      case ok obj =>
        rcases hv : evaluate_stmt f valE env st1 with ⟨o2, st2⟩
        have hx2 := ihStmt valE env st1 hx
        rw [hv] at hx2
        cases o2 <;> simp only [evaluate_attribute_assignment, ho, hv] <;>
          (repeat' split) <;> exact hx2
      all_goals simp only [evaluate_attribute_assignment, ho]; exact hx
    · intro fnE argEs env st h
      rcases hf : evaluate_stmt f fnE env st with ⟨o, st1⟩
      have hx := ihStmt fnE env st h
      rw [hf] at hx
      cases o
      case ok fv =>
        rcases ha : eval_expr_list f argEs env st1 with ⟨lo, st2⟩
        have hx2 := ihExpr argEs env st1 hx
        rw [ha] at hx2
        cases lo with
        | fail o2 => simp only [evaluate_function_call, hf, ha]; exact hx2
        | vals argVals =>
          cases fv
          case vmethod fd ce r =>
            simp only [evaluate_function_call, hf, ha]
            exact ihCallFn fd ce (.vobject r :: argVals) st2 hx2
          case vclass cd =>
            cases hL : cd.methods.lookup "__init__" with
            | none => simp only [evaluate_function_call, hf, ha, hL]; exact hx2
            | some ic =>
              rcases hcm : call_method f ic.1 ic.2 st2.objects.length argVals
                (addObject st2 ⟨cd, []⟩) with ⟨o3, st4⟩
              have hx3 := ihCallM ic.1 ic.2 st2.objects.length argVals
                (addObject st2 ⟨cd, []⟩) hx2
              rw [hcm] at hx3
              cases o3 <;> simp only [evaluate_function_call, hf, ha, hL, hcm] <;>
                exact hx3
          case vclosure fd ce =>
            simp only [evaluate_function_call, hf, ha]
            exact ihCallFn fd ce argVals st2 hx2
          all_goals simp only [evaluate_function_call, hf, ha]; exact hx2
      all_goals simp only [evaluate_function_call, hf]; exact hx
    · intro fd cenv args st h
      have hba := bindAll_state_astArgNames (effArgNames (addFrame st (some cenv)) fd)
        fd.vararg args st.frames.length (addFrame st (some cenv))
      cases hb : bindAll (effArgNames (addFrame st (some cenv)) fd) fd.vararg args
          st.frames.length (addFrame st (some cenv)) with
      | missing st2 =>
        rw [hb] at hba
        have hba2 : st2.astArgNames = st.astArgNames := hba
        have hgoal : ArgTableSelf st2.astArgNames := by rw [hba2]; exact h
        simp only [call_function, hb]
        exact hgoal
      | toomany st2 =>
        rw [hb] at hba
        have hba2 : st2.astArgNames = st.astArgNames := hba
        have hgoal : ArgTableSelf st2.astArgNames := by rw [hba2]; exact h
        simp only [call_function, hb]
        exact hgoal
      | bound st2 =>
        rw [hb] at hba
        have hba2 : st2.astArgNames = st.astArgNames := hba
        have hx2 : ArgTableSelf st2.astArgNames := by rw [hba2]; exact h
        rcases hbody : evaluate_from f .vnone fd.body st.frames.length st2 with ⟨o, st3⟩
        have hx3 := ihFrom .vnone fd.body st.frames.length st2 hx2
        rw [hbody] at hx3
        cases o <;> simp only [call_function, hb, hbody] <;> exact hx3
    · intro fd cenv inst args st h
      cases heff : effArgNames (addFrame st (some cenv)) fd with
      | nil => simp only [call_method, heff]; exact h
      | cons n0 rest =>
        have h2 : ArgTableSelf (setArgNames (addFrame st (some cenv)) fd.nodeId
            ("self" :: rest)).astArgNames := ArgTableSelf_dictSet fd.nodeId rest h
        have hbp := bindPositional_state_astArgNames rest args st.frames.length
          (insertVar (setArgNames (addFrame st (some cenv)) fd.nodeId ("self" :: rest))
            st.frames.length "self" (.vobject inst))
        cases hb : bindPositional rest args st.frames.length
            (insertVar (setArgNames (addFrame st (some cenv)) fd.nodeId ("self" :: rest))
              st.frames.length "self" (.vobject inst)) with
        | missing st4 =>
          rw [hb] at hbp
          have hbp2 : st4.astArgNames = (setArgNames (addFrame st (some cenv))
              fd.nodeId ("self" :: rest)).astArgNames := hbp
          have hx4 : ArgTableSelf st4.astArgNames := by rw [hbp2]; exact h2
          simp only [call_method, heff, hb]
          exact hx4
        | done st4 =>
          rw [hb] at hbp
          have hbp2 : st4.astArgNames = (setArgNames (addFrame st (some cenv))
              fd.nodeId ("self" :: rest)).astArgNames := hbp
          have hx4 : ArgTableSelf st4.astArgNames := by rw [hbp2]; exact h2
          simp only [call_method, heff, hb]
          exact ihBody fd.body .vnone st.frames.length st4 hx4
    · intro stmts result env st h
      cases stmts with
      | nil => exact h
      | cons s rest =>
        rcases hs : evaluate_stmt f s env st with ⟨o, st1⟩
        have hx := ihStmt s env st h
        rw [hs] at hx
        cases o
        case ok v =>
          simp only [call_method_body, hs]
          exact ihBody rest v env st1 hx
        all_goals simp only [call_method_body, hs]; exact hx

/-- Claim C2 (amended): the evaluator never mutates AST nodes, with one
exception - invoking a class's `__init__` overwrites the head of that
definition node's parameter-name list with `"self"`.  Hence, starting from
any state whose recorded rewrites are all self-headed (in particular the
initial state, which has none), every parameter-name list the evaluator has
rewritten begins with `"self"`; and a node the evaluator has never rewritten
is exactly as the parser produced it. -/
theorem claim2_ast_mutation :
    (∀ fuel prog env st, ArgTableSelf st.astArgNames →
      ArgTableSelf (evaluate fuel prog env st).2.astArgNames) ∧
    (∀ st' fd, st'.astArgNames.lookup fd.nodeId = none → astNodeUnchanged st' fd) := by
  constructor
  · intro fuel prog env st h
    exact (selfTable_pack fuel).2.1 .vnone prog env st h
  · intro st' fd hnone
    simp [astNodeUnchanged, effArgNames, hnone]

/-- Claim C2 witness: running the mutation program leaves only self-headed
rewrites in the node table, and in the pristine `initState` the `__init__`
node is unchanged. -/
theorem claim2_witness :
    ArgTableSelf (runProg 30 progC2).2.astArgNames ∧
    astNodeUnchanged initState fdC2 :=
  ⟨claim2_ast_mutation.1 30 progC2 0 initState (fun p hp => nomatch hp),
   claim2_ast_mutation.2 initState fdC2 (by decide)⟩
